import Mathlib

/-!
# Archive web API (`app/background-process/web-apis/archives.js`)

A shallow embedding of the archive lifecycle API: the key resolver `toKey`,
the timeout selector `to`, the commit filter `manifestFilter` and the
operations `status`, `create`, `fork`, `update`, `add`, `remove`, `get`.

JavaScript values are embedded as the type `Value`; an operation is a
state-passing function over `World` (the settings store plus the log of
collaborator calls) that ends in a resolved value or a thrown error.
Collaborators imported from other modules are fields of `Env`.
-/

namespace Archives

/-! ## JavaScript values -/

/-- JavaScript values that reach this module: the primitives, with integers
for the numbers (no `NaN`), and objects as references, so that `===` is
equality of the embedding. -/
inductive Value where
  | undefined
  | null
  | bool (b : Bool)
  | num (n : Int)
  | str (s : String)
  | obj (ref : Nat)
  deriving DecidableEq, Repr

/-- JavaScript truthiness (`!v`, `v && ...`). -/
def Value.truthy : Value → Bool
  | .undefined => false
  | .null => false
  | .bool b => b
  | .num n => n != 0
  | .str s => s != ""
  | .obj _ => true

/-- The string a value is coerced to when a string is expected, as in
`RegExp.prototype.test`. -/
def Value.toStr : Value → String
  | .undefined => "undefined"
  | .null => "null"
  | .bool b => if b then "true" else "false"
  | .num n => toString n
  | .str s => s
  | .obj _ => "[object Object]"

/-- An error object: its class name and its message. -/
structure JsError where
  name : String
  message : String
  deriving DecidableEq, Repr

/-- Names bound in the module: line 1 to 10 imports and the module's own
top-level declarations. -/
def moduleScope : List String :=
  ["BrowserWindow", "parseURL", "pda", "datLibrary", "archivesDb",
   "DAT_HASH_REGEX", "DEFAULT_DAT_API_TIMEOUT", "showModal",
   "showLocalPathDialog", "validateLocalPath", "timer",
   "PermissionsError", "InvalidURLError", "InvalidPathError",
   "to", "assertSenderIsFocused", "toKey", "manifestFilter"]

/-- Names of the global object used by the module. -/
def globalScope : List String := ["Error"]

/-- Evaluation of `new C(message)`: the identifier `C` is resolved first, and
an identifier bound neither in the module nor globally is a `ReferenceError`. -/
def construct (cls message : String) : Except JsError JsError :=
  if cls ∈ moduleScope ∨ cls ∈ globalScope then
    .ok { name := cls, message := message }
  else
    .error { name := "ReferenceError", message := cls ++ " is not defined" }

/-! ## Data model -/

/-- Result of `url.parse`: the fields `toKey` reads (`null` when absent). -/
structure UrlObject where
  protocol : Value
  host : Value
  deriving DecidableEq, Repr

/-- The staging area of an archive: the paths with pending changes. -/
structure StagingFS where
  pending : List String
  deriving DecidableEq, Repr

/-- Live telemetry of an archive (`archive.metadata`). -/
structure Metadata where
  peers : List Value
  deriving DecidableEq, Repr

/-- A loaded archive, as owned by the dat library. -/
structure Archive where
  key : Value
  writable : Bool
  stagingFS : StagingFS
  metadata : Metadata
  deriving DecidableEq, Repr

/-- The record `archivesDb.getMeta` resolves with. -/
structure ArchiveInfo where
  title : Value
  description : Value
  deriving DecidableEq, Repr

/-- A user settings record of the settings store. -/
structure UserSettings where
  isSaved : Value
  localPath : Value
  deriving DecidableEq, Repr

/-- The object literal handed to `setUserSettings`: a field is `none` when
the literal does not mention it. -/
structure SettingsPatch where
  isSaved : Option Value
  localPath : Option Value
  deriving DecidableEq, Repr

/-- The first argument of `create` and second of `fork`, destructured. -/
structure ManifestArgs where
  title : Value := .undefined
  description : Value := .undefined
  createdBy : Value := .undefined
  deriving DecidableEq, Repr

/-- A present `manifestInfo` argument of `update`, destructured. -/
structure ManifestInfo where
  title : Value := .undefined
  description : Value := .undefined
  deriving DecidableEq, Repr

/-- The options argument `{localPath} = {}`. -/
structure PathOpts where
  localPath : Value := .undefined
  deriving DecidableEq, Repr

/-- The options argument of `get`, when it is an object: `timeout` is `none`
when `typeof opts.timeout` is `'undefined'`, else the bound in milliseconds. -/
structure GetOpts where
  timeout : Option Nat
  deriving DecidableEq, Repr

/-- The counters `status` returns. -/
structure Status where
  archives : Nat
  peers : Nat
  deriving DecidableEq, Repr

/-- An asynchronous answer of the registry: when it settles, if ever. -/
inductive Pending (α : Type) where
  | never
  | settles (afterMs : Nat) (result : Except JsError α)

/-- Calls to collaborators, in the order they are issued. -/
inductive Event where
  | getActiveArchives
  | generateCreatedBy (arg : Value)
  | validateLocalPath (path : Value) (valid : Bool)
  | createNewArchive (manifest : ManifestArgs) (opts : PathOpts)
  | forkArchive (url : String) (manifest : ManifestArgs) (opts : PathOpts)
  | getOrLoadArchive (key : Value)
  | fromWebContents
  | isFocused (focused : Bool)
  | showModal (kind : String) (url : String) (isReadOnly : Bool) (size : String)
  | getMeta (key : Value)
  | updateManifest (archive : Archive) (title description : Value)
  | commit (archive : Archive) (applied : List String)
  | pullLatestArchiveMeta (archive : Archive)
  | setUserSettings (scope : Nat) (key : Value) (patch : SettingsPatch)
  | reconfigureStaging (archive : Archive) (settings : UserSettings)
  | getUserSettings (scope : Nat) (key : Value)
  | showLocalPathDialog
  | queryArchives (query : Value)
  | timer (ms : Nat)
  | getArchiveInfo (key : Value)
  deriving DecidableEq, Repr

/-- The imported collaborators and constants, and the caller (`this.sender`). -/
structure Env where
  /-- The matcher of `DAT_HASH_REGEX` (`lib/const`) on strings. -/
  DAT_HASH_REGEX : String → Bool
  /-- The constant `DEFAULT_DAT_API_TIMEOUT` (`lib/const`). -/
  DEFAULT_DAT_API_TIMEOUT : Nat
  /-- Node's `url.parse`, which throws (a `URIError`) on a string whose auth
  part cannot be decoded. -/
  parseURL : String → Except JsError UrlObject
  /-- The field `valid` of `validateLocalPath(path)`. -/
  validateLocalPath : Value → Bool
  /-- The value of `this.sender.getURL()`. -/
  senderURL : String
  /-- The value of `sender.isFocused()`. -/
  senderIsFocused : Bool
  generateCreatedBy : Value → Except JsError Value
  createNewArchive : ManifestArgs → PathOpts → Except JsError Value
  forkArchive : String → ManifestArgs → PathOpts → Except JsError Value
  getOrLoadArchive : Value → Except JsError Archive
  getMeta : Value → Except JsError ArchiveInfo
  updateManifest : Archive → Value → Value → Except JsError Unit
  commitResult : Archive → List String → Except JsError Unit
  reconfigureStaging : Archive → UserSettings → Except JsError Unit
  showLocalPathDialog : Value
  showModal : String → String → Bool → String → Except JsError Value
  getActiveArchives : List (String × Archive)
  queryArchives : Value → Except JsError Value
  getArchiveInfo : Value → Pending Value

/-- The settings store and the log of collaborator calls. -/
structure World where
  settings : List (Value × UserSettings)
  log : List Event
  deriving DecidableEq, Repr

/-- A world with the given settings store and no call made yet. -/
def World.init (settings : List (Value × UserSettings)) : World :=
  { settings := settings, log := [] }

/-! ## Pure helpers of the module -/

/-- `DAT_HASH_REGEX.test(v)`: the argument is coerced to a string. -/
def regexTest (env : Env) (v : Value) : Bool :=
  env.DAT_HASH_REGEX v.toStr

/-- The timeout selector `to` of lines 15 to 18 (`to` is a keyword of Lean,
hence the longer name); `opts` is `none` when the argument is falsy. -/
def toTimeout (env : Env) (opts : Option GetOpts) : Nat :=
  match opts with
  | some o =>
    match o.timeout with
    | some t => t
    | none => env.DEFAULT_DAT_API_TIMEOUT
  | none => env.DEFAULT_DAT_API_TIMEOUT

/-- The helper `toKey` (lines 161 to 179); line 167 has no `try`, so what
`url.parse` throws leaves `toKey` as it is. -/
def toKey (env : Env) (url : String) : Except JsError Value :=
  if regexTest env (.str url) then
    .ok (.str url)
  else
    match env.parseURL url with
    | .error e => .error e
    | .ok urlp =>
      if urlp.protocol ≠ .str "dat:" then
        (construct "InvalidURLError" "URL must be a dat: scheme").bind .error
      else if !regexTest env urlp.host then
        (construct "InvalidURLError" "Hostname is not a valid hash").bind .error
      else
        .ok urlp.host

/-- The commit filter `manifestFilter` (lines 181 to 184). -/
def manifestFilter (path : String) : Bool :=
  path != "/dat.json"

/-- Loop body of `status`, for one key of the mapping. -/
def statusStep (status : Status) (entry : String × Archive) : Status :=
  { archives := status.archives + 1,
    peers := status.peers + entry.2.metadata.peers.length }

/-! ## Operations as state-passing functions -/

/-- What an operation resolves with. -/
inductive Ret where
  | undefined
  | value (v : Value)
  | errorValue (e : JsError)
  | settings (s : UserSettings)
  deriving DecidableEq, Repr

/-- An asynchronous operation: from the world before to its outcome (resolved
with a value, or rejected with a thrown error) and the world after. -/
def Eff (α : Type) : Type := World → Except JsError α × World

/-- An operation that resolves at once. -/
def Eff.pure {α : Type} (a : α) : Eff α := fun w => (.ok a, w)

/-- Sequencing (`await`): a rejection ends the operation. -/
def Eff.bind {α β : Type} (m : Eff α) (f : α → Eff β) : Eff β := fun w =>
  match m w with
  | (.ok a, w1) => f a w1
  | (.error e, w1) => (.error e, w1)

instance : Monad Eff where
  pure := Eff.pure
  bind := Eff.bind

/-- The statement `throw e`. -/
def throwJs {α : Type} (e : JsError) : Eff α := fun w => (.error e, w)

/-- A computation without effect that may throw. -/
def ofExcept {α : Type} (r : Except JsError α) : Eff α := fun w => (r, w)

/-- A call to a collaborator: it is logged, then it resolves or rejects. -/
def call {α : Type} (ev : Event) (result : Except JsError α) : Eff α := fun w =>
  (result, { w with log := w.log ++ [ev] })

/-- The statement `try { m } catch (e) { handler }`. -/
def tryCatch {α : Type} (m : Eff α) (handler : JsError → Eff α) : Eff α := fun w =>
  match m w with
  | (.ok a, w1) => (.ok a, w1)
  | (.error e, w1) => handler e w1

/-- The expression `new C(message)` inside an operation. -/
def newError (cls message : String) : Eff JsError :=
  ofExcept (construct cls message)

/-! ### Settings store -/

/-- The stored record of a key, if any. -/
def lookupSettings (store : List (Value × UserSettings)) (key : Value) :
    Option UserSettings :=
  match store with
  | [] => none
  | (k, s) :: rest => if k = key then some s else lookupSettings rest key

/-- The stored `localPath` of a key (`undefined` without a record). -/
def storedLocalPath (store : List (Value × UserSettings)) (key : Value) : Value :=
  match lookupSettings store key with
  | some s => s.localPath
  | none => .undefined

/-- Modelled from the spec: how the settings store (`dbs/archives`, not part
of the sources) applies a patch to a record: the fields the patch holds are
overwritten, the others are kept. -/
def applyPatch (old : UserSettings) (patch : SettingsPatch) : UserSettings :=
  { isSaved := patch.isSaved.getD old.isSaved,
    localPath := patch.localPath.getD old.localPath }

/-- Modelled from the spec: the store after a record is written for a key
(`dbs/archives`, not part of the sources). -/
def putSettings (store : List (Value × UserSettings)) (key : Value)
    (s : UserSettings) : List (Value × UserSettings) :=
  match store with
  | [] => [(key, s)]
  | (k, old) :: rest =>
    if k = key then (k, s) :: rest else (k, old) :: putSettings rest key s

/-- Modelled from the spec: `archivesDb.getUserSettings(scope, id)`
(`dbs/archives`, not part of the sources), which resolves with the stored
record and fails with `NotFound` if there is none. -/
def getUserSettings (scope : Nat) (key : Value) : Eff UserSettings := fun w =>
  call (.getUserSettings scope key)
    (match lookupSettings w.settings key with
     | some s => .ok s
     | none => .error { name := "NotFound", message := "" }) w

/-- Modelled from the spec: `archivesDb.setUserSettings(scope, id, patch)`
(`dbs/archives`, not part of the sources), which applies the patch to the
record of the key and resolves with the record it stored. -/
def setUserSettings (scope : Nat) (key : Value) (patch : SettingsPatch) :
    Eff UserSettings := fun w =>
  let old := (lookupSettings w.settings key).getD
    { isSaved := .undefined, localPath := .undefined }
  let new := applyPatch old patch
  (.ok new, { settings := putSettings w.settings key new,
               log := w.log ++ [.setUserSettings scope key patch] })

/-! ### Staging primitives -/

/-- Modelled from the spec: the staging area after `pda.updateManifest` wrote
the manifest file into it (`pauls-dat-api`, not part of the sources). -/
def StagingFS.writeManifest (fs : StagingFS) : StagingFS :=
  if "/dat.json" ∈ fs.pending then fs
  else { pending := fs.pending ++ ["/dat.json"] }

/-- Modelled from the spec: the paths `pda.commit(stagingFS, {filter})` applies
(`pauls-dat-api`, not part of the sources): only those on which the filter
returns false. -/
def appliedPaths (fs : StagingFS) (filter : String → Bool) : List String :=
  fs.pending.filter (fun p => !filter p)

/-- The call `pda.updateManifest(archive.stagingFS, {title, description})`; it
resolves with the staging area as the write left it. -/
def updateManifest (env : Env) (archive : Archive) (title description : Value) :
    Eff StagingFS :=
  call (.updateManifest archive title description)
    ((env.updateManifest archive title description).map
      (fun _ => archive.stagingFS.writeManifest))

/-- The call `pda.commit(archive.stagingFS, {filter})`. -/
def commit (env : Env) (archive : Archive) (fs : StagingFS)
    (filter : String → Bool) : Eff Unit :=
  call (.commit archive (appliedPaths fs filter))
    (env.commitResult archive (appliedPaths fs filter))

/-! ### The exported API (lines 20 to 152) -/

/-- The message of every `InvalidPathError` of the module. -/
def invalidPathMessage : String := "Cannot save the site to that folder"

/-- The operation `status` (lines 21 to 29). -/
def status (env : Env) : Eff Status := do
  let archives ← call .getActiveArchives (.ok env.getActiveArchives)
  pure (archives.foldl statusStep { archives := 0, peers := 0 })

/-- The lines `// get origin info` shared by `create` and `fork`. -/
def originInfo (env : Env) (createdBy : Value) : Eff Value :=
  if !createdBy.truthy then
    call (.generateCreatedBy (.str env.senderURL))
      (env.generateCreatedBy (.str env.senderURL))
  else
    match createdBy with
    | .str s => call (.generateCreatedBy (.str s)) (env.generateCreatedBy (.str s))
    | other => pure other

/-- The call `validateLocalPath(path).valid`. -/
def validateLocalPath (env : Env) (path : Value) : Eff Bool :=
  call (.validateLocalPath path (env.validateLocalPath path))
    (.ok (env.validateLocalPath path))

/-- The operation `create` (lines 31 to 45). -/
def create (env : Env) (manifest : ManifestArgs) (opts : PathOpts) : Eff Ret := do
  let createdBy ← originInfo env manifest.createdBy
  let valid ← validateLocalPath env opts.localPath
  if !valid then
    let e ← newError "InvalidPathError" invalidPathMessage
    pure (.errorValue e)
  else
    let m : ManifestArgs :=
      { title := manifest.title, description := manifest.description, createdBy := createdBy }
    let r ← call (.createNewArchive m { localPath := opts.localPath })
      (env.createNewArchive m { localPath := opts.localPath })
    pure (.value r)

/-- The operation `fork` (lines 47 to 61). -/
def fork (env : Env) (url : String) (manifest : ManifestArgs) (opts : PathOpts) :
    Eff Ret := do
  let createdBy ← originInfo env manifest.createdBy
  let valid ← validateLocalPath env opts.localPath
  if !valid then
    let e ← newError "InvalidPathError" invalidPathMessage
    pure (.errorValue e)
  else
    let m : ManifestArgs :=
      { title := manifest.title, description := manifest.description, createdBy := createdBy }
    let r ← call (.forkArchive url m { localPath := opts.localPath })
      (env.forkArchive url m { localPath := opts.localPath })
    pure (.value r)

/-- The function `assertSenderIsFocused` (lines 154 to 158). -/
def assertSenderIsFocused (env : Env) : Eff Unit := do
  let focused ← call (.isFocused env.senderIsFocused) (.ok env.senderIsFocused)
  if !focused then
    let e ← newError "UserDeniedError" "Application must be focused to spawn a prompt"
    throwJs e
  else
    pure ()

/-- The branch `if (!manifestInfo)` of `update` (lines 71 to 81). -/
def updateModal (env : Env) (url : String) (archive : Archive) : Eff Ret := do
  call .fromWebContents (.ok ())
  assertSenderIsFocused env
  let isReadOnly := !archive.writable
  let size := if isReadOnly then "create-archive-readonly" else "create-archive"
  let r ← call (.showModal "create-archive" url isReadOnly size)
    (env.showModal "create-archive" url isReadOnly size)
  pure (.value r)

/-- The ternary of lines 86 and 87: the given value of a manifest field if
its type is not `'undefined'`, else the stored one. -/
def effective (given stored : Value) : Value :=
  if given ≠ .undefined then given else stored

/-- The lines `// update manifest file` of `update` (lines 83 to 92). -/
def updateManifestFile (env : Env) (key : Value) (archive : Archive)
    (manifestInfo : ManifestInfo) : Eff Unit := do
  let archiveInfo ← call (.getMeta key) (env.getMeta key)
  let title := effective manifestInfo.title archiveInfo.title
  let description := effective manifestInfo.description archiveInfo.description
  if title ≠ archiveInfo.title ∨ description ≠ archiveInfo.description then
    let staged ← updateManifest env archive title description
    commit env archive staged manifestFilter
    call (.pullLatestArchiveMeta archive) (.ok ())
  else
    pure ()

/-- The lines `// update settings` of `update` (lines 94 to 98). -/
def updateSettings (env : Env) (key : Value) (archive : Archive) (localPath : Value) :
    Eff Unit :=
  if localPath.truthy then do
    let userSettings ← setUserSettings 0 key { isSaved := none, localPath := some localPath }
    call (.reconfigureStaging archive userSettings)
      (env.reconfigureStaging archive userSettings)
  else
    pure ()

/-- Lines 71 to 98 of `update`, reached when the path check of line 67 did
not return; `manifestInfo` is `none` when the argument is falsy. -/
def updateAccepted (env : Env) (url : String) (key : Value) (archive : Archive)
    (manifestInfo : Option ManifestInfo) (localPath : Value) : Eff Ret :=
  match manifestInfo with
  | none => updateModal env url archive
  | some info => do
    updateManifestFile env key archive info
    updateSettings env key archive localPath
    pure .undefined

/-- The operation `update` (lines 63 to 99); `manifestInfo` is `none` when the
argument is falsy. -/
def update (env : Env) (url : String) (manifestInfo : Option ManifestInfo)
    (opts : PathOpts) : Eff Ret := do
  let key ← ofExcept (toKey env url)
  let archive ← call (.getOrLoadArchive key) (env.getOrLoadArchive key)
  let valid ←
    if opts.localPath.truthy then validateLocalPath env opts.localPath else pure true
  if !valid then
    let e ← newError "InvalidPathError" invalidPathMessage
    pure (.errorValue e)
  else
    updateAccepted env url key archive manifestInfo opts.localPath

/-- The lines `// load localPath if needed` of `add` (lines 104 to 110). -/
def loadLocalPath (key : Value) (localPath : Value) : Eff Value :=
  if !localPath.truthy then
    tryCatch
      (do let settings ← getUserSettings 0 key
          pure settings.localPath)
      (fun _ => pure localPath)
  else
    pure localPath

/-- The lines `// prompt localPath if needed` of `add` (lines 112 to 118). -/
def promptLocalPath (env : Env) (localPath : Value) : Eff Value :=
  if !localPath.truthy then do
    let chosen ← call .showLocalPathDialog (.ok env.showLocalPathDialog)
    if !chosen.truthy then
      let e ← newError "Error" "Cancelled"
      throwJs e
    else
      pure chosen
  else
    pure localPath

/-- Lines 124 to 130 of `add`, reached when the path check of line 120 did
not return. -/
def addAccepted (env : Env) (key : Value) (localPath : Value) : Eff Ret := do
  let res ← setUserSettings 0 key { isSaved := some (.bool true), localPath := some localPath }
  let archive ← call (.getOrLoadArchive key) (env.getOrLoadArchive key)
  call (.pullLatestArchiveMeta archive) (.ok ())
  pure (.settings res)

/-- The operation `add` (lines 101 to 131). -/
def add (env : Env) (url : String) (opts : PathOpts) : Eff Ret := do
  let key ← ofExcept (toKey env url)
  let loaded ← loadLocalPath key opts.localPath
  let localPath ← promptLocalPath env loaded
  let valid ← validateLocalPath env localPath
  if !valid then
    let e ← newError "InvalidPathError" invalidPathMessage
    pure (.errorValue e)
  else
    addAccepted env key localPath

/-- The operation `remove` (lines 133 to 136). -/
def remove (env : Env) (url : String) : Eff Ret := do
  let key ← ofExcept (toKey env url)
  let res ← setUserSettings 0 key { isSaved := some (.bool false), localPath := none }
  pure (.settings res)

/-- The operation `list` (lines 138 to 140). -/
def list (env : Env) (query : Value) : Eff Ret := do
  let r ← call (.queryArchives query) (env.queryArchives query)
  pure (.value r)

/-- Modelled from the spec: `timer(ms, fn)` (`lib/time`, not part of the
sources), which runs `fn` and bounds the wait for its answer: an answer that
does not arrive within `ms` milliseconds makes the call fail with a timeout. -/
def timer {α : Type} (ms : Nat) (fn : Eff (Pending α)) : Eff α := do
  call (.timer ms) (.ok ())
  let answer ← fn
  match answer with
  | .never => throwJs { name := "TimeoutError", message := "" }
  | .settles afterMs result =>
    if afterMs ≤ ms then ofExcept result
    else throwJs { name := "TimeoutError", message := "" }

/-- The operation `get` (lines 142 to 147). -/
def get (env : Env) (url : String) (opts : Option GetOpts) : Eff Ret :=
  timer (toTimeout env opts) (do
    let key ← ofExcept (toKey env url)
    let answer ← call (.getArchiveInfo key) (.ok (env.getArchiveInfo key))
    pure (match answer with
      | .never => .never
      | .settles afterMs result => .settles afterMs (result.map Ret.value)))

/-! ## Classes of collaborator calls -/

/-- Calls that mutate the registry, the settings store or the staging area. -/
def Event.isMutation : Event → Bool
  | .createNewArchive _ _ => true
  | .forkArchive _ _ _ => true
  | .setUserSettings _ _ _ => true
  | .updateManifest _ _ _ => true
  | .commit _ _ => true
  | .reconfigureStaging _ _ => true
  | _ => false

/-- Calls of the manifest synchronisation of `update`. -/
def Event.isManifestSync : Event → Bool
  | .updateManifest _ _ _ => true
  | .commit _ _ => true
  | .pullLatestArchiveMeta _ => true
  | _ => false

/-- Calls to the local path validator that reject the path. -/
def Event.isRejection : Event → Bool
  | .validateLocalPath _ valid => !valid
  | _ => false

/-- Calls to the local path validator. -/
def Event.isValidation : Event → Bool
  | .validateLocalPath _ _ => true
  | _ => false

/-- The operation only appends calls to the log, each of them in `S`. -/
def Eff.emitsOnly {α : Type} (m : Eff α) (S : Event → Prop) : Prop :=
  ∀ w, ∃ es, (m w).2.log = w.log ++ es ∧ ∀ e ∈ es, S e

/-- The operation leaves the settings store as it is. -/
def Eff.keepsSettings {α : Type} (m : Eff α) : Prop :=
  ∀ w, (m w).2.settings = w.settings

/-- A call to `commit` applies no path but the manifest file. -/
def Event.commitsManifestOnly : Event → Prop
  | .commit _ applied => ∀ p ∈ applied, p = "/dat.json"
  | _ => True

/-- What line 71 to 98 of `update` may call. -/
def updateAcceptedCalls (env : Env) (url : String) (key : Value) (archive : Archive)
    (localPath : Value) (e : Event) : Prop :=
  (e = .fromWebContents ∨ e = .isFocused env.senderIsFocused ∨
      ∃ size, e = .showModal "create-archive" url (!archive.writable) size) ∨
    (e = .getMeta key ∨ (∃ t d, e = .updateManifest archive t d) ∨
      (∃ fs, e = .commit archive (appliedPaths fs manifestFilter)) ∨
      e = .pullLatestArchiveMeta archive) ∨
    (e = .setUserSettings 0 key { isSaved := none, localPath := some localPath } ∨
      ∃ s, e = .reconfigureStaging archive s)

/-- The validator was consulted during the run and rejected the path. -/
def Rejected (out : Except JsError Ret × World) : Prop :=
  ∃ p, Event.validateLocalPath p false ∈ out.2.log

/-- The run resolved with an `InvalidPathError` as its value, issued no
mutating call and left the settings store as it was. -/
def RejectedCleanly (store : List (Value × UserSettings))
    (out : Except JsError Ret × World) : Prop :=
  out.1 = .ok (.errorValue { name := "InvalidPathError", message := invalidPathMessage }) ∧
    (∀ e ∈ out.2.log, e.isMutation = false) ∧ out.2.settings = store

/-! ## Sample collaborators -/

/-- A hexadecimal digit, in either case. -/
def isHexDigit (c : Char) : Bool :=
  c ∈ ['0', '1', '2', '3', '4', '5', '6', '7', '8', '9',
       'a', 'b', 'c', 'd', 'e', 'f', 'A', 'B', 'C', 'D', 'E', 'F']

/-- Modelled from the spec: an identifier pattern, a hash of 64 hexadecimal
digits (the constant `DAT_HASH_REGEX` of `lib/const` is not part of the
sources). -/
def hex64 (s : String) : Bool :=
  s.data.length == 64 && s.data.all isHexDigit

/-- An identifier. -/
def sampleKey : String :=
  "0123456789abcdef0123456789abcdef0123456789abcdef0123456789abcdef"

/-- A loaded archive with a pending file besides the manifest. -/
def sampleArchive : Archive :=
  { key := .str sampleKey, writable := true,
    stagingFS := { pending := ["/index.html"] },
    metadata := { peers := [.num 1, .num 2] } }

/-- A reference with the archive scheme and an identifier as its host, whose
auth part `%` is not a valid percent escape. -/
def malformedReference : String :=
  "dat://%@" ++ sampleKey ++ "/"

/-- The answers of `url.parse` on the references used below; on an auth part
that cannot be decoded it throws the `URIError` of `decodeURIComponent`. -/
def sampleParseURL (url : String) : Except JsError UrlObject :=
  if url = "dat://" ++ sampleKey ++ "/" then
    .ok { protocol := .str "dat:", host := .str sampleKey }
  else if url = "http://example.com/" then
    .ok { protocol := .str "http:", host := .str "example.com" }
  else if url = "dat://example.com/" then
    .ok { protocol := .str "dat:", host := .str "example.com" }
  else if url = malformedReference ∨ url = "http://%@example.com/" then
    .error { name := "URIError", message := "URI malformed" }
  else
    .ok { protocol := .null, host := .null }

/-- Collaborators that all succeed: a validator that rejects the path
`/bad`, a focused sender, stored metadata titled `Old`, a prompt that is
dismissed and a registry that never answers `getArchiveInfo`. -/
def sampleEnv : Env :=
  { DAT_HASH_REGEX := hex64
    DEFAULT_DAT_API_TIMEOUT := 5000
    parseURL := sampleParseURL
    validateLocalPath := fun p => p != .str "/bad"
    senderURL := "beaker://start/"
    senderIsFocused := true
    generateCreatedBy := fun _ => .ok (.obj 1)
    createNewArchive := fun _ _ => .ok (.obj 2)
    forkArchive := fun _ _ _ => .ok (.obj 3)
    getOrLoadArchive := fun _ => .ok sampleArchive
    getMeta := fun _ => .ok { title := .str "Old", description := .str "" }
    updateManifest := fun _ _ _ => .ok ()
    commitResult := fun _ _ => .ok ()
    reconfigureStaging := fun _ _ => .ok ()
    showLocalPathDialog := .undefined
    showModal := fun _ _ _ _ => .ok (.obj 4)
    getActiveArchives := [(sampleKey, sampleArchive)]
    queryArchives := fun _ => .ok (.obj 5)
    getArchiveInfo := fun _ => .never }

/-! ## Evaluation lemmas -/

theorem construct_InvalidURLError (msg : String) :
    construct "InvalidURLError" msg = .ok { name := "InvalidURLError", message := msg } := by
  rfl

theorem construct_InvalidPathError (msg : String) :
    construct "InvalidPathError" msg = .ok { name := "InvalidPathError", message := msg } := by
  rfl

theorem construct_Error (msg : String) :
    construct "Error" msg = .ok { name := "Error", message := msg } := by
  rfl

theorem construct_UserDeniedError (msg : String) :
    construct "UserDeniedError" msg =
      .error { name := "ReferenceError", message := "UserDeniedError is not defined" } := by
  rfl

theorem run_pure {α : Type} (a : α) (w : World) : (pure a : Eff α) w = (.ok a, w) := rfl

theorem run_bind {α β : Type} (m : Eff α) (f : α → Eff β) (w : World) :
    (m >>= f) w = match m w with
      | (.ok a, w1) => f a w1
      | (.error e, w1) => (.error e, w1) := rfl

theorem run_call {α : Type} (ev : Event) (r : Except JsError α) (w : World) :
    call ev r w = (r, { w with log := w.log ++ [ev] }) := rfl

theorem run_ofExcept {α : Type} (r : Except JsError α) (w : World) :
    ofExcept r w = (r, w) := rfl

theorem run_throwJs {α : Type} (e : JsError) (w : World) :
    (throwJs e : Eff α) w = (.error e, w) := rfl

/-! ## Settings store lemmas -/

theorem lookupSettings_putSettings (store : List (Value × UserSettings))
    (key k : Value) (s : UserSettings) :
    lookupSettings (putSettings store key s) k =
      if key = k then some s else lookupSettings store k := by
  induction store with
  | nil => simp [putSettings, lookupSettings]
  | cons e rest ih =>
    obtain ⟨k0, old⟩ := e
    by_cases h0 : k0 = key
    · subst h0
      by_cases hk : k0 = k <;> simp [putSettings, lookupSettings, hk]
    · by_cases hk : k0 = k
      · subst hk
        have : ¬ key = k0 := fun h => h0 h.symm
        simp [putSettings, lookupSettings, h0, this]
      · simp [putSettings, lookupSettings, h0, hk, ih]

theorem storedLocalPath_putSettings (store : List (Value × UserSettings))
    (key k : Value) (s : UserSettings)
    (h : s.localPath = storedLocalPath store key) :
    storedLocalPath (putSettings store key s) k = storedLocalPath store k := by
  unfold storedLocalPath at *
  rw [lookupSettings_putSettings]
  by_cases hk : key = k
  · subst hk
    simp [h]
  · simp [hk]

theorem applyPatch_localPath_none (store : List (Value × UserSettings)) (key : Value)
    (isSaved : Option Value) :
    (applyPatch ((lookupSettings store key).getD
        { isSaved := .undefined, localPath := .undefined })
      { isSaved := isSaved, localPath := none }).localPath = storedLocalPath store key := by
  unfold storedLocalPath applyPatch
  cases lookupSettings store key <;> simp

/-! ## Log discipline -/

theorem emitsOnly_pure {α : Type} (a : α) (S : Event → Prop) :
    (pure a : Eff α).emitsOnly S :=
  fun w => ⟨[], by simp [run_pure], by simp⟩

theorem emitsOnly_ofExcept {α : Type} (r : Except JsError α) (S : Event → Prop) :
    (ofExcept r).emitsOnly S :=
  fun w => ⟨[], by simp [run_ofExcept], by simp⟩

theorem emitsOnly_throwJs {α : Type} (e : JsError) (S : Event → Prop) :
    (throwJs e : Eff α).emitsOnly S :=
  fun w => ⟨[], by simp [run_throwJs], by simp⟩

theorem emitsOnly_call {α : Type} (ev : Event) (r : Except JsError α)
    (S : Event → Prop) (h : S ev) : (call ev r).emitsOnly S :=
  fun w => ⟨[ev], by simp [run_call], by simpa using h⟩

theorem emitsOnly_bind {α β : Type} (m : Eff α) (f : α → Eff β) (S : Event → Prop)
    (hm : m.emitsOnly S) (hf : ∀ a, (f a).emitsOnly S) : (m >>= f).emitsOnly S := by
  intro w
  obtain ⟨es1, h1, h1S⟩ := hm w
  rw [run_bind]
  rcases hmw : m w with ⟨e | a, w1⟩
  · rw [hmw] at h1
    exact ⟨es1, h1, h1S⟩
  · rw [hmw] at h1
    obtain ⟨es2, h2, h2S⟩ := hf a w1
    refine ⟨es1 ++ es2, ?_, ?_⟩
    · show (f a w1).2.log = w.log ++ (es1 ++ es2)
      rw [h2]
      simp only [] at h1
      rw [h1, List.append_assoc]
    · intro e he
      rcases List.mem_append.mp he with h | h
      · exact h1S e h
      · exact h2S e h

theorem emitsOnly_tryCatch {α : Type} (m : Eff α) (handler : JsError → Eff α)
    (S : Event → Prop) (hm : m.emitsOnly S) (hh : ∀ e, (handler e).emitsOnly S) :
    (tryCatch m handler).emitsOnly S := by
  intro w
  obtain ⟨es1, h1, h1S⟩ := hm w
  unfold tryCatch
  rcases hmw : m w with ⟨e | a, w1⟩
  · rw [hmw] at h1
    obtain ⟨es2, h2, h2S⟩ := hh e w1
    refine ⟨es1 ++ es2, ?_, ?_⟩
    · show (handler e w1).2.log = w.log ++ (es1 ++ es2)
      rw [h2]
      simp only [] at h1
      rw [h1, List.append_assoc]
    · intro e he
      rcases List.mem_append.mp he with h | h
      · exact h1S e h
      · exact h2S e h
  · rw [hmw] at h1
    exact ⟨es1, h1, h1S⟩

theorem emitsOnly_getUserSettings (scope : Nat) (key : Value) (S : Event → Prop)
    (h : S (.getUserSettings scope key)) : (getUserSettings scope key).emitsOnly S :=
  fun w => ⟨[.getUserSettings scope key], by simp [getUserSettings, run_call],
    by simpa using h⟩

theorem emitsOnly_setUserSettings (scope : Nat) (key : Value) (patch : SettingsPatch)
    (S : Event → Prop) (h : S (.setUserSettings scope key patch)) :
    (setUserSettings scope key patch).emitsOnly S :=
  fun w => ⟨[.setUserSettings scope key patch], by simp [setUserSettings],
    by simpa using h⟩

theorem keepsSettings_pure {α : Type} (a : α) : (pure a : Eff α).keepsSettings :=
  fun _ => rfl

theorem keepsSettings_ofExcept {α : Type} (r : Except JsError α) :
    (ofExcept r).keepsSettings :=
  fun _ => rfl

theorem keepsSettings_throwJs {α : Type} (e : JsError) :
    (throwJs e : Eff α).keepsSettings :=
  fun _ => rfl

theorem keepsSettings_call {α : Type} (ev : Event) (r : Except JsError α) :
    (call ev r).keepsSettings :=
  fun _ => rfl

theorem keepsSettings_getUserSettings (scope : Nat) (key : Value) :
    (getUserSettings scope key).keepsSettings :=
  fun _ => rfl

theorem keepsSettings_bind {α β : Type} (m : Eff α) (f : α → Eff β)
    (hm : m.keepsSettings) (hf : ∀ a, (f a).keepsSettings) :
    (m >>= f).keepsSettings := by
  intro w
  have h1 := hm w
  rw [run_bind]
  rcases hmw : m w with ⟨e | a, w1⟩
  · rw [hmw] at h1
    exact h1
  · rw [hmw] at h1
    exact (hf a w1).trans h1

theorem keepsSettings_tryCatch {α : Type} (m : Eff α) (handler : JsError → Eff α)
    (hm : m.keepsSettings) (hh : ∀ e, (handler e).keepsSettings) :
    (tryCatch m handler).keepsSettings := by
  intro w
  have h1 := hm w
  unfold tryCatch
  rcases hmw : m w with ⟨e | a, w1⟩
  · rw [hmw] at h1
    exact (hh e w1).trans h1
  · rw [hmw] at h1
    exact h1

theorem emitsOnly_mono {α : Type} (m : Eff α) (S T : Event → Prop)
    (h : ∀ e, S e → T e) (hm : m.emitsOnly S) : m.emitsOnly T := by
  intro w
  obtain ⟨es, h1, h2⟩ := hm w
  exact ⟨es, h1, fun e he => h e (h2 e he)⟩

theorem updateModal_emitsOnly (env : Env) (url : String) (archive : Archive) :
    (updateModal env url archive).emitsOnly (fun e =>
      e = .fromWebContents ∨ e = .isFocused env.senderIsFocused ∨
        ∃ size, e = .showModal "create-archive" url (!archive.writable) size) := by
  unfold updateModal assertSenderIsFocused
  refine emitsOnly_bind _ _ _ (emitsOnly_call _ _ _ (Or.inl rfl)) (fun _ => ?_)
  refine emitsOnly_bind _ _ _ ?_ (fun _ => ?_)
  · refine emitsOnly_bind _ _ _ (emitsOnly_call _ _ _ (Or.inr (Or.inl rfl))) (fun b => ?_)
    cases b
    · exact emitsOnly_bind _ _ _ (emitsOnly_ofExcept _ _) (fun _ => emitsOnly_throwJs _ _)
    · exact emitsOnly_pure _ _
  · exact emitsOnly_bind _ _ _ (emitsOnly_call _ _ _ (Or.inr (Or.inr ⟨_, rfl⟩)))
      (fun _ => emitsOnly_pure _ _)

theorem updateModal_keepsSettings (env : Env) (url : String) (archive : Archive) :
    (updateModal env url archive).keepsSettings := by
  unfold updateModal assertSenderIsFocused
  refine keepsSettings_bind _ _ (keepsSettings_call _ _) (fun _ => ?_)
  refine keepsSettings_bind _ _ ?_ (fun _ => ?_)
  · refine keepsSettings_bind _ _ (keepsSettings_call _ _) (fun b => ?_)
    cases b
    · exact keepsSettings_bind _ _ (keepsSettings_ofExcept _) (fun _ => keepsSettings_throwJs _)
    · exact keepsSettings_pure _
  · exact keepsSettings_bind _ _ (keepsSettings_call _ _) (fun _ => keepsSettings_pure _)

theorem updateManifestFile_emitsOnly (env : Env) (key : Value) (archive : Archive)
    (info : ManifestInfo) :
    (updateManifestFile env key archive info).emitsOnly (fun e =>
      e = .getMeta key ∨ (∃ t d, e = .updateManifest archive t d) ∨
        (∃ fs, e = .commit archive (appliedPaths fs manifestFilter)) ∨
        e = .pullLatestArchiveMeta archive) := by
  unfold updateManifestFile
  refine emitsOnly_bind _ _ _ (emitsOnly_call _ _ _ (Or.inl rfl)) (fun archiveInfo => ?_)
  simp only []
  split
  · unfold updateManifest commit
    refine emitsOnly_bind _ _ _ (emitsOnly_call _ _ _ (Or.inr (Or.inl ⟨_, _, rfl⟩)))
      (fun staged => ?_)
    refine emitsOnly_bind _ _ _
      (emitsOnly_call _ _ _ (Or.inr (Or.inr (Or.inl ⟨staged, rfl⟩)))) (fun _ => ?_)
    exact emitsOnly_call _ _ _ (Or.inr (Or.inr (Or.inr rfl)))
  · exact emitsOnly_pure _ _

theorem updateSettings_emitsOnly (env : Env) (key : Value) (archive : Archive)
    (localPath : Value) :
    (updateSettings env key archive localPath).emitsOnly (fun e =>
      e = .setUserSettings 0 key { isSaved := none, localPath := some localPath } ∨
        ∃ s, e = .reconfigureStaging archive s) := by
  unfold updateSettings
  split
  · exact emitsOnly_bind _ _ _ (emitsOnly_setUserSettings _ _ _ _ (Or.inl rfl))
      (fun s => emitsOnly_call _ _ _ (Or.inr ⟨s, rfl⟩))
  · exact emitsOnly_pure _ _

theorem loadLocalPath_emitsOnly (key localPath : Value) :
    (loadLocalPath key localPath).emitsOnly (fun e => e = .getUserSettings 0 key) := by
  unfold loadLocalPath
  split
  · exact emitsOnly_tryCatch _ _ _
      (emitsOnly_bind _ _ _ (emitsOnly_getUserSettings _ _ _ rfl) (fun _ => emitsOnly_pure _ _))
      (fun _ => emitsOnly_pure _ _)
  · exact emitsOnly_pure _ _

theorem loadLocalPath_keepsSettings (key localPath : Value) :
    (loadLocalPath key localPath).keepsSettings := by
  unfold loadLocalPath
  split
  · exact keepsSettings_tryCatch _ _
      (keepsSettings_bind _ _ (keepsSettings_getUserSettings _ _) (fun _ => keepsSettings_pure _))
      (fun _ => keepsSettings_pure _)
  · exact keepsSettings_pure _

theorem promptLocalPath_emitsOnly (env : Env) (localPath : Value) :
    (promptLocalPath env localPath).emitsOnly (fun e => e = .showLocalPathDialog) := by
  unfold promptLocalPath
  split
  · refine emitsOnly_bind _ _ _ (emitsOnly_call _ _ _ rfl) (fun chosen => ?_)
    split
    · exact emitsOnly_bind _ _ _ (emitsOnly_ofExcept _ _) (fun _ => emitsOnly_throwJs _ _)
    · exact emitsOnly_pure _ _
  · exact emitsOnly_pure _ _

theorem promptLocalPath_keepsSettings (env : Env) (localPath : Value) :
    (promptLocalPath env localPath).keepsSettings := by
  unfold promptLocalPath
  split
  · refine keepsSettings_bind _ _ (keepsSettings_call _ _) (fun chosen => ?_)
    split
    · exact keepsSettings_bind _ _ (keepsSettings_ofExcept _) (fun _ => keepsSettings_throwJs _)
    · exact keepsSettings_pure _
  · exact keepsSettings_pure _

theorem originInfo_emitsOnly (env : Env) (createdBy : Value) :
    (originInfo env createdBy).emitsOnly (fun e => ∃ arg, e = .generateCreatedBy arg) := by
  unfold originInfo
  split
  · exact emitsOnly_call _ _ _ ⟨_, rfl⟩
  · split
    · exact emitsOnly_call _ _ _ ⟨_, rfl⟩
    · exact emitsOnly_pure _ _

theorem originInfo_keepsSettings (env : Env) (createdBy : Value) :
    (originInfo env createdBy).keepsSettings := by
  unfold originInfo
  split
  · exact keepsSettings_call _ _
  · split
    · exact keepsSettings_call _ _
    · exact keepsSettings_pure _


theorem updateAccepted_emitsOnly (env : Env) (url : String) (key : Value)
    (archive : Archive) (info : Option ManifestInfo) (localPath : Value) :
    (updateAccepted env url key archive info localPath).emitsOnly
      (updateAcceptedCalls env url key archive localPath) := by
  unfold updateAccepted
  cases info with
  | none =>
    exact emitsOnly_mono _ _ _ (fun e h => Or.inl h) (updateModal_emitsOnly env url archive)
  | some info =>
    refine emitsOnly_bind _ _ _
      (emitsOnly_mono _ _ _ (fun e h => Or.inr (Or.inl h))
        (updateManifestFile_emitsOnly env key archive info)) (fun _ => ?_)
    exact emitsOnly_bind _ _ _
      (emitsOnly_mono _ _ _ (fun e h => Or.inr (Or.inr h))
        (updateSettings_emitsOnly env key archive localPath)) (fun _ => emitsOnly_pure _ _)

theorem manifestFilter_false_iff (p : String) :
    manifestFilter p = false ↔ p = "/dat.json" := by
  simp [manifestFilter]

theorem appliedPaths_manifestFilter (fs : StagingFS) (p : String)
    (h : p ∈ appliedPaths fs manifestFilter) : p = "/dat.json" := by
  unfold appliedPaths at h
  have h2 := (List.mem_filter.mp h).2
  simpa [manifestFilter] using h2

theorem updateAcceptedCalls_commitsManifestOnly (env : Env) (url : String) (key : Value)
    (archive : Archive) (localPath : Value) (e : Event)
    (h : updateAcceptedCalls env url key archive localPath e) : e.commitsManifestOnly := by
  rcases h with (h | h | ⟨_, h⟩) | (h | ⟨_, _, h⟩ | ⟨fs, h⟩ | h) | (h | ⟨_, h⟩) <;> subst h <;>
    simp only [Event.commitsManifestOnly]
  exact fun p hp => appliedPaths_manifestFilter fs p hp

theorem updateAcceptedCalls_isValidation (env : Env) (url : String) (key : Value)
    (archive : Archive) (localPath : Value) (e : Event)
    (h : updateAcceptedCalls env url key archive localPath e) : e.isValidation = false := by
  rcases h with (h | h | ⟨_, h⟩) | (h | ⟨_, _, h⟩ | ⟨fs, h⟩ | h) | (h | ⟨_, h⟩) <;> subst h <;> rfl

theorem update_run (env : Env) (url : String) (info : Option ManifestInfo)
    (opts : PathOpts) (w : World) :
    update env url info opts w =
      match toKey env url with
      | .error e => (.error e, w)
      | .ok key =>
        match env.getOrLoadArchive key with
        | .error e => (.error e, { w with log := w.log ++ [.getOrLoadArchive key] })
        | .ok archive =>
          if opts.localPath.truthy = true then
            if env.validateLocalPath opts.localPath = true then
              updateAccepted env url key archive info opts.localPath
                { w with log := w.log ++
                    [.getOrLoadArchive key, .validateLocalPath opts.localPath true] }
            else
              (.ok (.errorValue { name := "InvalidPathError", message := invalidPathMessage }),
                { w with log := w.log ++
                    [.getOrLoadArchive key, .validateLocalPath opts.localPath false] })
          else
            updateAccepted env url key archive info opts.localPath
              { w with log := w.log ++ [.getOrLoadArchive key] } := by
  unfold update
  rcases hk : toKey env url with e | key
  · simp [run_bind, run_ofExcept]
  · rcases hg : env.getOrLoadArchive key with e | archive
    · simp [run_bind, run_ofExcept, run_call, hg]
    · cases ht : opts.localPath.truthy
      · simp [run_bind, run_ofExcept, run_call, hg, run_pure]
      · cases hv : env.validateLocalPath opts.localPath <;>
          simp [run_bind, run_ofExcept, run_call, hg, run_pure, hv, validateLocalPath,
            newError, construct_InvalidPathError]


/-! ## The key resolver -/

/-- C1: a reference that matches the identifier pattern is returned by
`toKey` as it is. -/
theorem toKey_identity (env : Env) (s : String) (h : env.DAT_HASH_REGEX s = true) :
    toKey env s = .ok (.str s) := by
  simp [toKey, regexTest, Value.toStr, h]

theorem toKey_identity_witness :
    sampleEnv.DAT_HASH_REGEX sampleKey = true ∧
      toKey sampleEnv sampleKey = .ok (.str sampleKey) :=
  ⟨by decide, toKey_identity sampleEnv sampleKey (by decide)⟩

/-- C2 as stated fails: the reference `dat://%@<key>/` does not match the
identifier pattern, `url.parse` throws a `URIError` on its auth part, and
`toKey` fails with that error: it neither throws an `InvalidURLError` nor
returns a host. -/
theorem toKey_undecodable_auth_not_InvalidURLError :
    sampleEnv.DAT_HASH_REGEX malformedReference = false ∧
      toKey sampleEnv malformedReference =
        .error { name := "URIError", message := "URI malformed" } ∧
      (¬ ∃ msg, toKey sampleEnv malformedReference =
        .error { name := "InvalidURLError", message := msg }) ∧
      ¬ ∃ v, toKey sampleEnv malformedReference = .ok v := by
  have h : toKey sampleEnv malformedReference =
      .error { name := "URIError", message := "URI malformed" } := rfl
  refine ⟨by decide, h, ?_, ?_⟩
  · rintro ⟨msg, hm⟩
    rw [h] at hm
    have hn : "URIError" = "InvalidURLError" := congrArg JsError.name (Except.error.inj hm)
    exact absurd hn (by decide)
  · rintro ⟨v, hv⟩
    rw [h] at hv
    cases hv

/-- C2 (amended): on a reference that does not match the identifier pattern
and that `url.parse` parses, `toKey` throws an `InvalidURLError` exactly when
the parsed protocol is not `dat:` or the parsed host does not match the
pattern, and returns the parsed host otherwise; when `url.parse` throws,
`toKey` fails with the error thrown; every value `toKey` returns matches the
pattern. -/
theorem toKey_nonmatching (env : Env) (s : String) :
    (env.DAT_HASH_REGEX s = false →
      (∀ urlp, env.parseURL s = .ok urlp →
        ((∃ msg, toKey env s = .error { name := "InvalidURLError", message := msg }) ↔
          (urlp.protocol ≠ .str "dat:" ∨ regexTest env urlp.host = false)) ∧
        (¬ (urlp.protocol ≠ .str "dat:" ∨ regexTest env urlp.host = false) →
          toKey env s = .ok urlp.host)) ∧
      (∀ e, env.parseURL s = .error e → toKey env s = .error e)) ∧
    (∀ v, toKey env s = .ok v → regexTest env v = true) := by
  refine ⟨fun h => ⟨fun urlp hu => ?_, fun e he => ?_⟩, fun v hv => ?_⟩
  · have h1 : regexTest env (.str s) = false := by simpa [regexTest, Value.toStr] using h
    by_cases hp : urlp.protocol = .str "dat:"
    · cases hh : regexTest env urlp.host
      · simp [toKey, h1, hu, hp, hh, construct_InvalidURLError, Except.bind]
      · simp [toKey, h1, hu, hp, hh]
    · simp [toKey, h1, hu, hp, construct_InvalidURLError, Except.bind]
  · have h1 : regexTest env (.str s) = false := by simpa [regexTest, Value.toStr] using h
    simp [toKey, h1, he]
  · cases h1 : regexTest env (.str s)
    · rcases hu : env.parseURL s with e | urlp
      · simp [toKey, h1, hu] at hv
      · by_cases hp : urlp.protocol = .str "dat:"
        · cases hh : regexTest env urlp.host
          · simp [toKey, h1, hu, hp, hh, construct_InvalidURLError, Except.bind] at hv
          · simp [toKey, h1, hu, hp, hh] at hv
            rw [← hv]; exact hh
        · simp [toKey, h1, hu, hp, construct_InvalidURLError, Except.bind] at hv
    · simp [toKey, h1] at hv
      rw [← hv]; exact h1

theorem toKey_nonmatching_witness :
    sampleEnv.DAT_HASH_REGEX "http://example.com/" = false ∧
      (∃ msg, toKey sampleEnv "http://example.com/" =
        .error { name := "InvalidURLError", message := msg }) ∧
      sampleEnv.DAT_HASH_REGEX ("dat://" ++ sampleKey ++ "/") = false ∧
      toKey sampleEnv ("dat://" ++ sampleKey ++ "/") = .ok (.str sampleKey) ∧
      sampleEnv.DAT_HASH_REGEX "http://%@example.com/" = false ∧
      toKey sampleEnv "http://%@example.com/" =
        .error { name := "URIError", message := "URI malformed" } ∧
      regexTest sampleEnv (.str sampleKey) = true :=
  ⟨by decide,
    (((toKey_nonmatching sampleEnv "http://example.com/").1 (by decide)).1
      { protocol := .str "http:", host := .str "example.com" } rfl).1.mpr
      (Or.inl (by decide)),
    by decide,
    (((toKey_nonmatching sampleEnv ("dat://" ++ sampleKey ++ "/")).1 (by decide)).1
      { protocol := .str "dat:", host := .str sampleKey } rfl).2 (by decide),
    by decide,
    ((toKey_nonmatching sampleEnv "http://%@example.com/").1 (by decide)).2
      { name := "URIError", message := "URI malformed" } rfl,
    (toKey_nonmatching sampleEnv ("dat://" ++ sampleKey ++ "/")).2 (.str sampleKey) rfl⟩

/-! ## remove -/

/-- C7: on a valid reference `remove` issues one settings write, with the
patch that holds `isSaved = false` and nothing else, and no other call; the
stored `localPath` of every key is what it was before. -/
theorem remove_only_clears_isSaved (env : Env) (url : String) (key : Value)
    (w : World) (h : toKey env url = .ok key) :
    (remove env url w).2.log =
        w.log ++ [.setUserSettings 0 key { isSaved := some (.bool false), localPath := none }] ∧
      (∀ k, storedLocalPath (remove env url w).2.settings k = storedLocalPath w.settings k) ∧
      (∃ s, (remove env url w).1 = .ok (.settings s) ∧ s.isSaved = .bool false) := by
  have hrun : remove env url w =
      (.ok (.settings (applyPatch ((lookupSettings w.settings key).getD
          { isSaved := .undefined, localPath := .undefined })
          { isSaved := some (.bool false), localPath := none })),
        { settings := putSettings w.settings key
            (applyPatch ((lookupSettings w.settings key).getD
              { isSaved := .undefined, localPath := .undefined })
              { isSaved := some (.bool false), localPath := none }),
          log := w.log ++
            [.setUserSettings 0 key { isSaved := some (.bool false), localPath := none }] }) := by
    simp [remove, run_bind, run_ofExcept, h, setUserSettings, run_pure]
  rw [hrun]
  refine ⟨rfl, fun k => ?_, _, rfl, ?_⟩
  · exact storedLocalPath_putSettings _ _ _ _ (applyPatch_localPath_none _ _ _)
  · simp [applyPatch]

theorem remove_only_clears_isSaved_witness :
    toKey sampleEnv ("dat://" ++ sampleKey ++ "/") = .ok (.str sampleKey) ∧
      (remove sampleEnv ("dat://" ++ sampleKey ++ "/")
          (World.init [(.str sampleKey, { isSaved := .bool true, localPath := .str "/q" })])).2.log =
        [.setUserSettings 0 (.str sampleKey)
          { isSaved := some (.bool false), localPath := none }] :=
  ⟨rfl,
    (remove_only_clears_isSaved sampleEnv ("dat://" ++ sampleKey ++ "/") (.str sampleKey)
      (World.init [(.str sampleKey, { isSaved := .bool true, localPath := .str "/q" })])
      rfl).1⟩

/-! ## update -/

theorem update_log (env : Env) (url : String) (info : Option ManifestInfo)
    (opts : PathOpts) (w : World) (e : Event)
    (he : e ∈ (update env url info opts w).2.log) :
    e ∈ w.log ∨ (∃ key, e = .getOrLoadArchive key) ∨
      (∃ valid, e = .validateLocalPath opts.localPath valid ∧ opts.localPath.truthy = true) ∨
      ∃ key archive, updateAcceptedCalls env url key archive opts.localPath e := by
  rw [update_run] at he
  rcases hk : toKey env url with err | key
  · simp only [hk] at he
    exact Or.inl he
  · rcases hg : env.getOrLoadArchive key with err | archive
    · simp only [hk, hg, List.mem_append, List.mem_singleton] at he
      rcases he with h | h
      · exact Or.inl h
      · exact Or.inr (Or.inl ⟨key, h⟩)
    · cases ht : opts.localPath.truthy
      · simp only [hk, hg, ht, Bool.false_eq_true, if_false] at he
        obtain ⟨es, hlog, hS⟩ := updateAccepted_emitsOnly env url key archive info
          opts.localPath { w with log := w.log ++ [.getOrLoadArchive key] }
        rw [hlog] at he
        simp only [List.mem_append, List.mem_singleton] at he
        rcases he with (h | h) | h
        · exact Or.inl h
        · exact Or.inr (Or.inl ⟨key, h⟩)
        · exact Or.inr (Or.inr (Or.inr ⟨key, archive, hS e h⟩))
      · cases hv : env.validateLocalPath opts.localPath
        · simp only [hk, hg, ht, hv, if_true, Bool.false_eq_true, if_false, List.mem_append,
            List.mem_cons, List.mem_singleton, List.not_mem_nil, or_false] at he
          rcases he with h | h | h
          · exact Or.inl h
          · exact Or.inr (Or.inl ⟨key, h⟩)
          · exact Or.inr (Or.inr (Or.inl ⟨false, h, rfl⟩))
        · simp only [hk, hg, ht, hv, if_true] at he
          obtain ⟨es, hlog, hS⟩ := updateAccepted_emitsOnly env url key archive info
            opts.localPath { w with log := w.log ++
              [.getOrLoadArchive key, .validateLocalPath opts.localPath true] }
          rw [hlog] at he
          simp only [List.mem_append, List.mem_cons, List.mem_singleton, List.not_mem_nil,
            or_false] at he
          rcases he with (h | h | h) | h
          · exact Or.inl h
          · exact Or.inr (Or.inl ⟨key, h⟩)
          · exact Or.inr (Or.inr (Or.inl ⟨true, h, rfl⟩))
          · exact Or.inr (Or.inr (Or.inr ⟨key, archive, hS e h⟩))

/-- C4: `manifestFilter` returns false on `/dat.json` and on no other path, so
a commit filtered by it applies the manifest file at most, and every commit
that `update` issues applies no other staged path, whatever is pending. -/
theorem update_commit_applies_manifest_only (env : Env) (url : String)
    (info : Option ManifestInfo) (opts : PathOpts)
    (store : List (Value × UserSettings)) :
    (∀ p, manifestFilter p = false ↔ p = "/dat.json") ∧
      (∀ fs p, p ∈ appliedPaths fs manifestFilter → p = "/dat.json") ∧
      (∀ archive applied,
        Event.commit archive applied ∈ (update env url info opts (World.init store)).2.log →
          ∀ p ∈ applied, p = "/dat.json") := by
  refine ⟨manifestFilter_false_iff, appliedPaths_manifestFilter, ?_⟩
  intro archive applied he
  rcases update_log env url info opts (World.init store) _ he with
    h | ⟨_, h⟩ | ⟨_, h, _⟩ | ⟨key, a, h⟩
  · simp [World.init] at h
  · cases h
  · cases h
  · exact updateAcceptedCalls_commitsManifestOnly env url key a opts.localPath _ h

theorem update_commit_applies_manifest_only_witness :
    Event.commit sampleArchive ["/dat.json"] ∈
        (update sampleEnv sampleKey (some { title := .str "New" }) {}
          (World.init [])).2.log ∧
      "/dat.json" ∈ ["/dat.json"] ∧ "/dat.json" = "/dat.json" :=
  ⟨by decide, by decide,
    (update_commit_applies_manifest_only sampleEnv sampleKey (some { title := .str "New" }) {}
      []).2.2 sampleArchive ["/dat.json"] (by decide) "/dat.json" (by decide)⟩


/-! ## Run equations of create, fork and add -/

theorem create_run (env : Env) (m : ManifestArgs) (o : PathOpts) (w : World) :
    create env m o w =
      match originInfo env m.createdBy w with
      | (.error e, w1) => (.error e, w1)
      | (.ok cb, w1) =>
        if env.validateLocalPath o.localPath = true then
          ((env.createNewArchive
              { title := m.title, description := m.description, createdBy := cb }
              { localPath := o.localPath }).map Ret.value,
            { w1 with log := w1.log ++ [.validateLocalPath o.localPath true,
                .createNewArchive
                  { title := m.title, description := m.description, createdBy := cb }
                  { localPath := o.localPath }] })
        else
          (.ok (.errorValue { name := "InvalidPathError", message := invalidPathMessage }),
            { w1 with log := w1.log ++ [.validateLocalPath o.localPath false] }) := by
  unfold create
  rw [run_bind]
  rcases originInfo env m.createdBy w with ⟨e | cb, w1⟩
  · rfl
  · cases hv : env.validateLocalPath o.localPath
    · simp [run_bind, validateLocalPath, run_call, hv, newError, run_ofExcept,
        construct_InvalidPathError, run_pure]
    · simp only [run_bind, validateLocalPath, run_call, hv, run_pure]
      cases env.createNewArchive
        { title := m.title, description := m.description, createdBy := cb }
        { localPath := o.localPath } <;> simp [Except.map, run_bind, run_call, run_pure]

theorem fork_run (env : Env) (url : String) (m : ManifestArgs) (o : PathOpts) (w : World) :
    fork env url m o w =
      match originInfo env m.createdBy w with
      | (.error e, w1) => (.error e, w1)
      | (.ok cb, w1) =>
        if env.validateLocalPath o.localPath = true then
          ((env.forkArchive url
              { title := m.title, description := m.description, createdBy := cb }
              { localPath := o.localPath }).map Ret.value,
            { w1 with log := w1.log ++ [.validateLocalPath o.localPath true,
                .forkArchive url
                  { title := m.title, description := m.description, createdBy := cb }
                  { localPath := o.localPath }] })
        else
          (.ok (.errorValue { name := "InvalidPathError", message := invalidPathMessage }),
            { w1 with log := w1.log ++ [.validateLocalPath o.localPath false] }) := by
  unfold fork
  rw [run_bind]
  rcases originInfo env m.createdBy w with ⟨e | cb, w1⟩
  · rfl
  · cases hv : env.validateLocalPath o.localPath
    · simp [run_bind, validateLocalPath, run_call, hv, newError, run_ofExcept,
        construct_InvalidPathError, run_pure]
    · simp only [run_bind, validateLocalPath, run_call, hv, run_pure]
      cases env.forkArchive url
        { title := m.title, description := m.description, createdBy := cb }
        { localPath := o.localPath } <;> simp [Except.map, run_bind, run_call, run_pure]

theorem add_run (env : Env) (url : String) (opts : PathOpts) (w : World) :
    add env url opts w =
      match toKey env url with
      | .error e => (.error e, w)
      | .ok key =>
        match loadLocalPath key opts.localPath w with
        | (.error e, w1) => (.error e, w1)
        | (.ok loaded, w1) =>
          match promptLocalPath env loaded w1 with
          | (.error e, w2) => (.error e, w2)
          | (.ok localPath, w2) =>
            if env.validateLocalPath localPath = true then
              addAccepted env key localPath
                { w2 with log := w2.log ++ [.validateLocalPath localPath true] }
            else
              (.ok (.errorValue { name := "InvalidPathError", message := invalidPathMessage }),
                { w2 with log := w2.log ++ [.validateLocalPath localPath false] }) := by
  unfold add
  rcases hk : toKey env url with e | key
  · simp [run_bind, run_ofExcept]
  · simp only [run_bind, run_ofExcept]
    rcases loadLocalPath key opts.localPath w with ⟨e | loaded, w1⟩
    · rfl
    · simp only []
      rcases promptLocalPath env loaded w1 with ⟨e | localPath, w2⟩
      · rfl
      · cases hv : env.validateLocalPath localPath <;>
          simp [run_bind, run_ofExcept, run_call, run_pure, hv, validateLocalPath,
            newError, construct_InvalidPathError]

theorem addAccepted_emitsOnly (env : Env) (key localPath : Value) :
    (addAccepted env key localPath).emitsOnly (fun e =>
      e = .setUserSettings 0 key
          { isSaved := some (.bool true), localPath := some localPath } ∨
        e = .getOrLoadArchive key ∨ ∃ archive, e = .pullLatestArchiveMeta archive) := by
  unfold addAccepted
  refine emitsOnly_bind _ _ _ (emitsOnly_setUserSettings _ _ _ _ (Or.inl rfl)) (fun _ => ?_)
  refine emitsOnly_bind _ _ _ (emitsOnly_call _ _ _ (Or.inr (Or.inl rfl))) (fun a => ?_)
  exact emitsOnly_bind _ _ _ (emitsOnly_call _ _ _ (Or.inr (Or.inr ⟨a, rfl⟩)))
    (fun _ => emitsOnly_pure _ _)

theorem loadLocalPath_result (key localPath : Value) (w : World) :
    ∃ v, (loadLocalPath key localPath w).1 = .ok v ∧
      (v = localPath ∨ v = storedLocalPath w.settings key) := by
  unfold loadLocalPath
  cases ht : localPath.truthy
  · cases hl : lookupSettings w.settings key with
    | none =>
      exact ⟨localPath, by simp [tryCatch, run_bind, getUserSettings, run_call, hl, run_pure],
        Or.inl rfl⟩
    | some s =>
      exact ⟨s.localPath,
        by simp [tryCatch, run_bind, getUserSettings, run_call, hl, run_pure],
        Or.inr (by simp [storedLocalPath, hl])⟩
  · exact ⟨localPath, by simp [run_pure], Or.inl rfl⟩

theorem promptLocalPath_result (env : Env) (localPath : Value) (w : World) (v : Value)
    (h : (promptLocalPath env localPath w).1 = .ok v) :
    v = localPath ∨ v = env.showLocalPathDialog := by
  unfold promptLocalPath at h
  cases ht : localPath.truthy
  · cases hc : env.showLocalPathDialog.truthy
    · simp [ht, hc, run_bind, run_call, newError, run_ofExcept, construct_Error,
        run_throwJs] at h
    · simp [ht, hc, run_bind, run_call, run_pure] at h
      exact Or.inr h.symm
  · simp [ht, run_pure] at h
    exact Or.inl h.symm

theorem create_rejected (env : Env) (m : ManifestArgs) (o : PathOpts)
    (store : List (Value × UserSettings))
    (h : Rejected (create env m o (World.init store))) :
    RejectedCleanly store (create env m o (World.init store)) := by
  obtain ⟨p, hp⟩ := h
  unfold RejectedCleanly
  rw [create_run] at hp ⊢
  obtain ⟨es, hlog, hS⟩ := originInfo_emitsOnly env m.createdBy (World.init store)
  have hset := originInfo_keepsSettings env m.createdBy (World.init store)
  rcases ho : originInfo env m.createdBy (World.init store) with ⟨err | cb, w1⟩
  · rw [ho] at hlog hp
    simp only [World.init, List.nil_append] at hp hlog
    rw [hlog] at hp
    obtain ⟨_, h⟩ := hS _ hp
    cases h
  · rw [ho] at hlog hset hp
    simp only [World.init, List.nil_append] at hlog hset
    cases hv : env.validateLocalPath o.localPath
    · simp only [Bool.false_eq_true, if_false, hlog]
      refine ⟨trivial, ?_, hset⟩
      intro e he
      rcases List.mem_append.mp he with h | h
      · obtain ⟨_, h⟩ := hS _ h
        subst h
        rfl
      · rw [List.mem_singleton.mp h]
        rfl
    · simp only [hv, if_true, hlog, List.mem_append, List.mem_cons,
        List.not_mem_nil, or_false] at hp
      rcases hp with h | h | h
      · obtain ⟨_, h⟩ := hS _ h
        cases h
      · cases h
      · cases h

theorem fork_rejected (env : Env) (url : String) (m : ManifestArgs) (o : PathOpts)
    (store : List (Value × UserSettings))
    (h : Rejected (fork env url m o (World.init store))) :
    RejectedCleanly store (fork env url m o (World.init store)) := by
  obtain ⟨p, hp⟩ := h
  unfold RejectedCleanly
  rw [fork_run] at hp ⊢
  obtain ⟨es, hlog, hS⟩ := originInfo_emitsOnly env m.createdBy (World.init store)
  have hset := originInfo_keepsSettings env m.createdBy (World.init store)
  rcases ho : originInfo env m.createdBy (World.init store) with ⟨err | cb, w1⟩
  · rw [ho] at hlog hp
    simp only [World.init, List.nil_append] at hp hlog
    rw [hlog] at hp
    obtain ⟨_, h⟩ := hS _ hp
    cases h
  · rw [ho] at hlog hset hp
    simp only [World.init, List.nil_append] at hlog hset
    cases hv : env.validateLocalPath o.localPath
    · simp only [Bool.false_eq_true, if_false, hlog]
      refine ⟨trivial, ?_, hset⟩
      intro e he
      rcases List.mem_append.mp he with h | h
      · obtain ⟨_, h⟩ := hS _ h
        subst h
        rfl
      · rw [List.mem_singleton.mp h]
        rfl
    · simp only [hv, if_true, hlog, List.mem_append, List.mem_cons,
        List.not_mem_nil, or_false] at hp
      rcases hp with h | h | h
      · obtain ⟨_, h⟩ := hS _ h
        cases h
      · cases h
      · cases h

theorem update_rejected (env : Env) (url : String) (info : Option ManifestInfo)
    (o : PathOpts) (store : List (Value × UserSettings))
    (h : Rejected (update env url info o (World.init store))) :
    RejectedCleanly store (update env url info o (World.init store)) := by
  obtain ⟨p, hp⟩ := h
  unfold RejectedCleanly
  rw [update_run] at hp ⊢
  rcases hk : toKey env url with err | key
  · simp [hk, World.init] at hp
  · rcases hg : env.getOrLoadArchive key with err | archive
    · simp [hk, hg, World.init] at hp
    · cases ht : o.localPath.truthy
      · simp only [hk, hg, ht, Bool.false_eq_true, if_false] at hp
        obtain ⟨es, hlog, hS⟩ := updateAccepted_emitsOnly env url key archive info
          o.localPath { World.init store with
            log := (World.init store).log ++ [.getOrLoadArchive key] }
        rw [hlog] at hp
        simp only [World.init, List.nil_append, List.mem_append, List.mem_singleton] at hp
        rcases hp with h | h
        · cases h
        · have := updateAcceptedCalls_isValidation _ _ _ _ _ _ (hS _ h)
          cases this
      · cases hv : env.validateLocalPath o.localPath
        · simp only [hk, hg, ht, hv, if_true, Bool.false_eq_true, if_false, World.init,
            List.nil_append]
          refine ⟨trivial, ?_, trivial⟩
          intro e he
          simp only [List.mem_cons, List.not_mem_nil, or_false] at he
          rcases he with h | h <;> subst h <;> rfl
        · simp only [hk, hg, ht, hv, if_true] at hp
          obtain ⟨es, hlog, hS⟩ := updateAccepted_emitsOnly env url key archive info
            o.localPath { World.init store with
              log := (World.init store).log ++
                [.getOrLoadArchive key, .validateLocalPath o.localPath true] }
          rw [hlog] at hp
          simp only [World.init, List.nil_append, List.mem_append, List.mem_cons,
            List.not_mem_nil, or_false] at hp
          rcases hp with (h | h) | h
          · cases h
          · cases h
          · have := updateAcceptedCalls_isValidation _ _ _ _ _ _ (hS _ h)
            cases this

theorem add_rejected (env : Env) (url : String) (o : PathOpts)
    (store : List (Value × UserSettings))
    (h : Rejected (add env url o (World.init store))) :
    RejectedCleanly store (add env url o (World.init store)) := by
  obtain ⟨p, hp⟩ := h
  unfold RejectedCleanly
  rw [add_run] at hp ⊢
  rcases hk : toKey env url with err | key
  · simp [hk, World.init] at hp
  · rw [hk] at hp
    simp only [] at hp ⊢
    obtain ⟨es1, hlog1, hS1⟩ := loadLocalPath_emitsOnly key o.localPath (World.init store)
    have hset1 := loadLocalPath_keepsSettings key o.localPath (World.init store)
    rcases hl : loadLocalPath key o.localPath (World.init store) with ⟨err | loaded, w1⟩
    · rw [hl] at hp hlog1
      simp only [World.init, List.nil_append] at hp hlog1
      rw [hlog1] at hp
      cases hS1 _ hp
    · rw [hl] at hp hlog1 hset1
      simp only [World.init, List.nil_append] at hp hlog1 hset1 ⊢
      obtain ⟨es2, hlog2, hS2⟩ := promptLocalPath_emitsOnly env loaded w1
      have hset2 := promptLocalPath_keepsSettings env loaded w1
      rcases hpr : promptLocalPath env loaded w1 with ⟨err | localPath, w2⟩
      · rw [hpr] at hp hlog2
        simp only [] at hp hlog2
        rw [hlog2, hlog1] at hp
        rcases List.mem_append.mp hp with h | h
        · cases hS1 _ h
        · cases hS2 _ h
      · rw [hpr] at hp hlog2 hset2
        simp only [] at hp hlog2 hset2 ⊢
        cases hv : env.validateLocalPath localPath
        · simp only [Bool.false_eq_true, if_false]
          refine ⟨trivial, ?_, hset2.trans hset1⟩
          intro e he
          rw [hlog2, hlog1] at he
          simp only [List.mem_append, List.mem_singleton] at he
          rcases he with (h | h) | h
          · rw [hS1 _ h]; rfl
          · rw [hS2 _ h]; rfl
          · rw [h]; rfl
        · simp only [hv, if_true] at hp
          obtain ⟨es3, hlog3, hS3⟩ := addAccepted_emitsOnly env key localPath
            { w2 with log := w2.log ++ [.validateLocalPath localPath true] }
          rw [hlog3] at hp
          simp only [hlog2, hlog1, List.mem_append, List.mem_singleton] at hp
          rcases hp with ((h | h) | h) | h
          · cases hS1 _ h
          · cases hS2 _ h
          · cases h
          · rcases hS3 _ h with h | h | ⟨_, h⟩ <;> cases h

theorem create_consults (env : Env) (m : ManifestArgs) (o : PathOpts) (w : World)
    (cb : Value) (w1 : World) (h : originInfo env m.createdBy w = (.ok cb, w1)) :
    Event.validateLocalPath o.localPath (env.validateLocalPath o.localPath) ∈
      (create env m o w).2.log := by
  rw [create_run, h]
  cases hv : env.validateLocalPath o.localPath <;> simp

theorem fork_consults (env : Env) (url : String) (m : ManifestArgs) (o : PathOpts)
    (w : World) (cb : Value) (w1 : World)
    (h : originInfo env m.createdBy w = (.ok cb, w1)) :
    Event.validateLocalPath o.localPath (env.validateLocalPath o.localPath) ∈
      (fork env url m o w).2.log := by
  rw [fork_run, h]
  cases hv : env.validateLocalPath o.localPath <;> simp

theorem update_consults (env : Env) (url : String) (info : Option ManifestInfo)
    (o : PathOpts) (store : List (Value × UserSettings)) (p : Value) (valid : Bool)
    (h : Event.validateLocalPath p valid ∈ (update env url info o (World.init store)).2.log) :
    p = o.localPath ∧ o.localPath.truthy = true := by
  rcases update_log env url info o (World.init store) _ h with
    h | ⟨_, h⟩ | ⟨_, h, ht⟩ | ⟨key, a, h⟩
  · simp [World.init] at h
  · cases h
  · cases h
    exact ⟨rfl, ht⟩
  · have := updateAcceptedCalls_isValidation _ _ _ _ _ _ h
    cases this

theorem add_consults (env : Env) (url : String) (o : PathOpts)
    (store : List (Value × UserSettings)) (p : Value) (valid : Bool)
    (h : Event.validateLocalPath p valid ∈ (add env url o (World.init store)).2.log) :
    p = o.localPath ∨ (∃ key, toKey env url = .ok key ∧ p = storedLocalPath store key) ∨
      p = env.showLocalPathDialog := by
  rw [add_run] at h
  rcases hk : toKey env url with err | key
  · simp [hk, World.init] at h
  · rw [hk] at h
    simp only [] at h
    obtain ⟨es1, hlog1, hS1⟩ := loadLocalPath_emitsOnly key o.localPath (World.init store)
    have hset1 := loadLocalPath_keepsSettings key o.localPath (World.init store)
    obtain ⟨v1, hr1, hv1⟩ := loadLocalPath_result key o.localPath (World.init store)
    rcases hl : loadLocalPath key o.localPath (World.init store) with ⟨err | loaded, w1⟩
    · rw [hl] at h hlog1
      simp only [World.init, List.nil_append] at h hlog1
      rw [hlog1] at h
      cases hS1 _ h
    · rw [hl] at h hlog1 hr1
      simp only [World.init, List.nil_append, Except.ok.injEq] at h hlog1 hr1 hv1
      subst hr1
      obtain ⟨es2, hlog2, hS2⟩ := promptLocalPath_emitsOnly env loaded w1
      have hv2 := promptLocalPath_result env loaded w1
      rcases hpr : promptLocalPath env loaded w1 with ⟨err | localPath, w2⟩
      · rw [hpr] at h hlog2
        simp only [] at h hlog2
        rw [hlog2, hlog1] at h
        rcases List.mem_append.mp h with h | h
        · cases hS1 _ h
        · cases hS2 _ h
      · rw [hpr] at h hlog2 hv2
        have hv2 := hv2 localPath rfl
        simp only [] at h hlog2
        have hcand : localPath = o.localPath ∨
            (∃ k, (Except.ok key : Except JsError Value) = Except.ok k ∧
              localPath = storedLocalPath store k) ∨
            localPath = env.showLocalPathDialog := by
          rcases hv2 with h2 | h2
          · rcases hv1 with h1 | h1
            · exact Or.inl (h2.trans h1)
            · exact Or.inr (Or.inl ⟨key, rfl, h2.trans h1⟩)
          · exact Or.inr (Or.inr h2)
        cases hv : env.validateLocalPath localPath
        · simp only [hv, Bool.false_eq_true, if_false, hlog2, hlog1, List.mem_append,
            List.mem_singleton] at h
          rcases h with (h | h) | h
          · cases hS1 _ h
          · cases hS2 _ h
          · cases h
            exact hcand
        · simp only [hv, if_true] at h
          obtain ⟨es3, hlog3, hS3⟩ := addAccepted_emitsOnly env key localPath
            { w2 with log := w2.log ++ [.validateLocalPath localPath true] }
          rw [hlog3] at h
          simp only [hlog2, hlog1, List.mem_append, List.mem_singleton] at h
          rcases h with ((h | h) | h) | h
          · cases hS1 _ h
          · cases hS2 _ h
          · cases h
            exact hcand
          · rcases hS3 _ h with h | h | ⟨_, h⟩ <;> cases h

/-! ## Path validation -/

/-- C5: in `create`, `fork`, `update` and `add`, when the validator is
consulted and rejects the path, the operation resolves with an
`InvalidPathError` as its value and has issued no mutating call
(`createNewArchive`, `forkArchive`, `setUserSettings`, `updateManifest`,
`commit`, `reconfigureStaging`), the settings store being as before. `create`
and `fork` consult the validator on `options.localPath` whatever it is,
`update` only on a truthy `localPath`, and `add` on the argument, the stored
path or the answer of the prompt. -/
theorem invalid_path_returned_before_mutation (env : Env)
    (store : List (Value × UserSettings)) :
    (∀ m o, Rejected (create env m o (World.init store)) →
        RejectedCleanly store (create env m o (World.init store))) ∧
      (∀ url m o, Rejected (fork env url m o (World.init store)) →
        RejectedCleanly store (fork env url m o (World.init store))) ∧
      (∀ url info o, Rejected (update env url info o (World.init store)) →
        RejectedCleanly store (update env url info o (World.init store))) ∧
      (∀ url o, Rejected (add env url o (World.init store)) →
        RejectedCleanly store (add env url o (World.init store))) ∧
      (∀ m o cb w1, originInfo env m.createdBy (World.init store) = (.ok cb, w1) →
        Event.validateLocalPath o.localPath (env.validateLocalPath o.localPath) ∈
            (create env m o (World.init store)).2.log ∧
          ∀ url, Event.validateLocalPath o.localPath (env.validateLocalPath o.localPath) ∈
            (fork env url m o (World.init store)).2.log) ∧
      (∀ url info o p valid,
        Event.validateLocalPath p valid ∈ (update env url info o (World.init store)).2.log →
          p = o.localPath ∧ o.localPath.truthy = true) ∧
      (∀ url o p valid,
        Event.validateLocalPath p valid ∈ (add env url o (World.init store)).2.log →
          p = o.localPath ∨
            (∃ key, toKey env url = .ok key ∧ p = storedLocalPath store key) ∨
            p = env.showLocalPathDialog) :=
  ⟨fun m o => create_rejected env m o store,
    fun url m o => fork_rejected env url m o store,
    fun url info o => update_rejected env url info o store,
    fun url o => add_rejected env url o store,
    fun m o cb w1 h =>
      ⟨create_consults env m o _ cb w1 h, fun url => fork_consults env url m o _ cb w1 h⟩,
    fun url info o p valid => update_consults env url info o store p valid,
    fun url o p valid => add_consults env url o store p valid⟩

theorem invalid_path_returned_before_mutation_witness :
    Rejected (create sampleEnv { title := .str "Site" } { localPath := .str "/bad" }
        (World.init [])) ∧
      RejectedCleanly [] (create sampleEnv { title := .str "Site" } { localPath := .str "/bad" }
        (World.init [])) ∧
      Rejected (update sampleEnv sampleKey (some { title := .str "New" })
        { localPath := .str "/bad" } (World.init [])) ∧
      RejectedCleanly [] (update sampleEnv sampleKey (some { title := .str "New" })
        { localPath := .str "/bad" } (World.init [])) :=
  ⟨⟨.str "/bad", by decide⟩,
    (invalid_path_returned_before_mutation sampleEnv []).1 _ _ ⟨.str "/bad", by decide⟩,
    ⟨.str "/bad", by decide⟩,
    (invalid_path_returned_before_mutation sampleEnv []).2.2.1 _ _ _ ⟨.str "/bad", by decide⟩⟩

/-! ## The confirmation branch of update -/

/-- C8 (what the code does): an `update` without `manifestInfo` from a sender
that is not focused is rejected with a `ReferenceError`, since line 156
constructs `UserDeniedError`, a name that line 10 does not import; no
`PermissionsError` is thrown. The modal is not shown and no mutating call is
issued. -/
theorem update_unfocused_throws_ReferenceError (env : Env) (url : String) (key : Value)
    (archive : Archive) (opts : PathOpts) (store : List (Value × UserSettings))
    (hk : toKey env url = .ok key) (hg : env.getOrLoadArchive key = .ok archive)
    (hpath : opts.localPath.truthy = true → env.validateLocalPath opts.localPath = true)
    (hf : env.senderIsFocused = false) :
    (update env url none opts (World.init store)).1 =
        .error { name := "ReferenceError", message := "UserDeniedError is not defined" } ∧
      (∀ e ∈ (update env url none opts (World.init store)).2.log,
        e.isMutation = false ∧ ∀ kind u r size, e ≠ .showModal kind u r size) ∧
      (update env url none opts (World.init store)).2.settings = store := by
  rw [update_run]
  cases ht : opts.localPath.truthy
  · simp [hk, hg, hf, updateAccepted, updateModal, assertSenderIsFocused, run_bind,
      run_call, newError, run_ofExcept, construct_UserDeniedError, World.init,
      Event.isMutation]
  · simp [hk, hg, hf, hpath ht, updateAccepted, updateModal, assertSenderIsFocused,
      run_bind, run_call, newError, run_ofExcept, construct_UserDeniedError, World.init,
      Event.isMutation]

theorem update_unfocused_throws_ReferenceError_witness :
    (update { sampleEnv with senderIsFocused := false } sampleKey none {}
        (World.init [])).1 =
      .error { name := "ReferenceError", message := "UserDeniedError is not defined" } :=
  (update_unfocused_throws_ReferenceError { sampleEnv with senderIsFocused := false }
    sampleKey (.str sampleKey) sampleArchive {} [] rfl rfl (fun h => by cases h) rfl).1

/-! ## status -/

theorem foldl_statusStep (entries : List (String × Archive)) (acc : Status) :
    entries.foldl statusStep acc =
      { archives := acc.archives + entries.length,
        peers := acc.peers + (entries.map (fun e => e.2.metadata.peers.length)).sum } := by
  induction entries generalizing acc with
  | nil => simp
  | cons e rest ih =>
    rw [List.foldl_cons, ih]
    simp only [statusStep, List.length_cons, List.map_cons, List.sum_cons]
    congr 1 <;> omega

/-- C10: `status` returns the number of entries of the mapping of active
archives and the sum of their peer counts, both 0 for the empty mapping; it
reads the registry once and writes nothing. -/
theorem status_counts (env : Env) (w : World) :
    status env w =
        (.ok { archives := env.getActiveArchives.length,
               peers := (env.getActiveArchives.map
                 (fun e => e.2.metadata.peers.length)).sum },
          { w with log := w.log ++ [.getActiveArchives] }) ∧
      (status { env with getActiveArchives := [] } w).1 = .ok { archives := 0, peers := 0 } ∧
      (status env w).2.settings = w.settings := by
  have h : ∀ env : Env, status env w =
      (.ok { archives := env.getActiveArchives.length,
             peers := (env.getActiveArchives.map
               (fun e => e.2.metadata.peers.length)).sum },
        { w with log := w.log ++ [.getActiveArchives] }) := by
    intro env
    simp [status, run_bind, run_call, run_pure, foldl_statusStep]
  refine ⟨h env, ?_, ?_⟩
  · rw [h]
    rfl
  · rw [h]

/-! ## get -/

/-- C9: the bound `get` hands to the timer is `opts.timeout` whenever `opts`
is given and its `timeout` is defined, the value 0 included, and the default
constant only when `opts` is absent or its `timeout` undefined; so `get` with
a timeout of 0 on a valid reference, the registry never answering, fails with
the timeout error of the timer. -/
theorem get_timeout_bound (env : Env) (url : String) (w : World) :
    (∀ t, toTimeout env (some { timeout := some t }) = t) ∧
      toTimeout env (some { timeout := some 0 }) = 0 ∧
      toTimeout env (some { timeout := none }) = env.DEFAULT_DAT_API_TIMEOUT ∧
      toTimeout env none = env.DEFAULT_DAT_API_TIMEOUT ∧
      (∀ opts, ∃ rest, (get env url opts w).2.log =
        w.log ++ Event.timer (toTimeout env opts) :: rest) ∧
      (∀ key, toKey env url = .ok key → env.getArchiveInfo key = .never →
        (get env url (some { timeout := some 0 }) w).1 =
            .error { name := "TimeoutError", message := "" } ∧
          (get env url (some { timeout := some 0 }) w).2.log =
            w.log ++ [.timer 0, .getArchiveInfo key]) := by
  refine ⟨fun t => rfl, rfl, rfl, rfl, ?_, ?_⟩
  · intro opts
    unfold get timer
    rcases hk : toKey env url with e | key
    · exact ⟨[], by simp [run_bind, run_call, run_ofExcept]⟩
    · refine ⟨[.getArchiveInfo key], ?_⟩
      cases hr : env.getArchiveInfo key with
      | never => simp [run_bind, run_call, run_ofExcept, run_pure, hr, run_throwJs]
      | settles ms r =>
        by_cases hms : ms ≤ toTimeout env opts <;>
          simp [run_bind, run_call, run_ofExcept, run_pure, hr, run_throwJs, hms]
  · intro key hk hn
    simp [get, timer, toTimeout, run_bind, run_call, run_ofExcept, run_pure, hk, hn,
      run_throwJs]

theorem get_timeout_bound_witness :
    toKey sampleEnv sampleKey = .ok (.str sampleKey) ∧
      (get sampleEnv sampleKey (some { timeout := some 0 }) (World.init [])).1 =
        .error { name := "TimeoutError", message := "" } :=
  ⟨rfl, ((get_timeout_bound sampleEnv sampleKey (World.init [])).2.2.2.2.2
    (.str sampleKey) rfl rfl).1⟩

/-! ## The manifest synchronisation of update -/

theorem updateManifestFile_unchanged (env : Env) (key : Value) (archive : Archive)
    (info : ManifestInfo) (stored : ArchiveInfo) (w : World)
    (hm : env.getMeta key = .ok stored)
    (hsame : ¬ (effective info.title stored.title ≠ stored.title ∨
      effective info.description stored.description ≠ stored.description)) :
    updateManifestFile env key archive info w =
      (.ok (), { w with log := w.log ++ [.getMeta key] }) := by
  unfold updateManifestFile
  simp only [run_bind, run_call, hm]
  rw [if_neg hsame]
  rfl

theorem updateManifestFile_changed (env : Env) (key : Value) (archive : Archive)
    (info : ManifestInfo) (stored : ArchiveInfo) (w : World)
    (hm : env.getMeta key = .ok stored)
    (hdiff : effective info.title stored.title ≠ stored.title ∨
      effective info.description stored.description ≠ stored.description)
    (hu : env.updateManifest archive (effective info.title stored.title)
      (effective info.description stored.description) = .ok ())
    (hc : env.commitResult archive
      (appliedPaths archive.stagingFS.writeManifest manifestFilter) = .ok ()) :
    updateManifestFile env key archive info w =
      (.ok (), { w with log := w.log ++
        [.getMeta key,
          .updateManifest archive (effective info.title stored.title)
            (effective info.description stored.description),
          .commit archive (appliedPaths archive.stagingFS.writeManifest manifestFilter),
          .pullLatestArchiveMeta archive] }) := by
  unfold updateManifestFile
  simp only [run_bind, run_call, hm]
  rw [if_pos hdiff]
  simp [run_bind, run_call, updateManifest, commit, hu, hc, Except.map]

theorem filter_isManifestSync_updateSettings (key : Value) (archive : Archive)
    (localPath : Value) (es : List Event)
    (h : ∀ e ∈ es,
      e = .setUserSettings 0 key { isSaved := none, localPath := some localPath } ∨
        ∃ s, e = .reconfigureStaging archive s) :
    es.filter Event.isManifestSync = [] := by
  rw [List.filter_eq_nil_iff]
  intro e he
  rcases h e he with h | ⟨_, h⟩ <;> subst h <;> simp [Event.isManifestSync]

theorem updateAccepted_sync (env : Env) (url : String) (key : Value) (archive : Archive)
    (info : ManifestInfo) (localPath : Value) (w w1 : World) (sync : List Event)
    (h : updateManifestFile env key archive info w =
      (.ok (), { w1 with log := w1.log ++ .getMeta key :: sync }))
    (hsync : sync.filter Event.isManifestSync = sync) :
    (updateAccepted env url key archive (some info) localPath w).2.log.filter
        Event.isManifestSync =
      w1.log.filter Event.isManifestSync ++ sync := by
  unfold updateAccepted
  simp only [run_bind, h]
  obtain ⟨es, hlog, hS⟩ := updateSettings_emitsOnly env key archive localPath
    { w1 with log := w1.log ++ .getMeta key :: sync }
  rcases hr : updateSettings env key archive localPath
    { w1 with log := w1.log ++ .getMeta key :: sync } with ⟨err | u, w2⟩
  · rw [hr] at hlog
    simp only [] at hlog ⊢
    rw [hlog]
    simp [List.filter_append, List.filter_cons, Event.isManifestSync, hsync,
      filter_isManifestSync_updateSettings key archive localPath es hS]
  · rw [hr] at hlog
    simp only [run_pure] at hlog ⊢
    rw [hlog]
    simp [List.filter_append, List.filter_cons, Event.isManifestSync, hsync,
      filter_isManifestSync_updateSettings key archive localPath es hS]

theorem effective_stored (given stored stored2 : Value)
    (h : stored2 = effective given stored) : effective given stored2 = stored2 := by
  unfold effective at *
  by_cases hg : given = .undefined
  · simp [hg]
  · simp only [ne_eq, hg, not_false_eq_true, if_true] at h ⊢
    exact h.symm

theorem update_sync_log (env : Env) (url : String) (key : Value) (archive : Archive)
    (info : ManifestInfo) (opts : PathOpts) (store : List (Value × UserSettings))
    (sync : List Event)
    (hk : toKey env url = .ok key) (hg : env.getOrLoadArchive key = .ok archive)
    (hpath : opts.localPath.truthy = true → env.validateLocalPath opts.localPath = true)
    (h : ∀ w, updateManifestFile env key archive info w =
      (.ok (), { w with log := w.log ++ .getMeta key :: sync }))
    (hsync : sync.filter Event.isManifestSync = sync) :
    (update env url (some info) opts (World.init store)).2.log.filter
      Event.isManifestSync = sync := by
  rw [update_run]
  cases ht : opts.localPath.truthy
  · simp only [hk, hg, Bool.false_eq_true, if_false]
    rw [updateAccepted_sync env url key archive info opts.localPath _ _ sync (h _) hsync]
    simp [World.init, Event.isManifestSync]
  · simp only [hk, hg, hpath ht, if_true]
    rw [updateAccepted_sync env url key archive info opts.localPath _ _ sync (h _) hsync]
    simp [World.init, Event.isManifestSync]

/-- C3: an `update` with `manifestInfo` present that reaches the manifest
lines (valid reference, archive loaded, path not rejected, stored metadata
read, staging calls resolving) issues one `updateManifest`, one `commit` and
then one `pullLatestArchiveMeta` when the effective title or description
differs from the stored one, and none of the three otherwise; a later
`update` with the same `manifestInfo`, once the stored title and description
are the effective ones, issues none of them. -/
theorem update_manifest_sync (env : Env) (url : String) (key : Value)
    (archive : Archive) (info : ManifestInfo) (opts : PathOpts) (stored : ArchiveInfo)
    (store : List (Value × UserSettings))
    (hk : toKey env url = .ok key) (hg : env.getOrLoadArchive key = .ok archive)
    (hpath : opts.localPath.truthy = true → env.validateLocalPath opts.localPath = true)
    (hm : env.getMeta key = .ok stored)
    (hu : env.updateManifest archive (effective info.title stored.title)
      (effective info.description stored.description) = .ok ())
    (hc : env.commitResult archive
      (appliedPaths archive.stagingFS.writeManifest manifestFilter) = .ok ()) :
    ((update env url (some info) opts (World.init store)).2.log.filter
        Event.isManifestSync =
      if effective info.title stored.title ≠ stored.title ∨
          effective info.description stored.description ≠ stored.description then
        [.updateManifest archive (effective info.title stored.title)
            (effective info.description stored.description),
          .commit archive (appliedPaths archive.stagingFS.writeManifest manifestFilter),
          .pullLatestArchiveMeta archive]
      else []) ∧
      (∀ (env2 : Env) (key2 : Value) (archive2 : Archive) (stored2 : ArchiveInfo)
          (store2 : List (Value × UserSettings)),
        toKey env2 url = .ok key2 → env2.getOrLoadArchive key2 = .ok archive2 →
        (opts.localPath.truthy = true → env2.validateLocalPath opts.localPath = true) →
        env2.getMeta key2 = .ok stored2 →
        stored2.title = effective info.title stored.title →
        stored2.description = effective info.description stored.description →
        (update env2 url (some info) opts (World.init store2)).2.log.filter
          Event.isManifestSync = []) := by
  constructor
  · by_cases hdiff : effective info.title stored.title ≠ stored.title ∨
        effective info.description stored.description ≠ stored.description
    · rw [if_pos hdiff]
      exact update_sync_log env url key archive info opts store _ hk hg hpath
        (fun w => updateManifestFile_changed env key archive info stored w hm hdiff hu hc)
        (by simp [Event.isManifestSync])
    · rw [if_neg hdiff]
      exact update_sync_log env url key archive info opts store _ hk hg hpath
        (fun w => updateManifestFile_unchanged env key archive info stored w hm hdiff)
        (by simp)
  · intro env2 key2 archive2 stored2 store2 hk2 hg2 hpath2 hm2 ht hd
    have hsame : ¬ (effective info.title stored2.title ≠ stored2.title ∨
        effective info.description stored2.description ≠ stored2.description) := by
      rw [effective_stored _ _ _ ht, effective_stored _ _ _ hd]
      simp
    exact update_sync_log env2 url key2 archive2 info opts store2 _ hk2 hg2 hpath2
      (fun w => updateManifestFile_unchanged env2 key2 archive2 info stored2 w hm2 hsame)
      (by simp)

theorem update_manifest_sync_witness :
    (update sampleEnv ("dat://" ++ sampleKey ++ "/") (some { title := .str "New" }) {}
        (World.init [])).2.log.filter Event.isManifestSync =
      [.updateManifest sampleArchive (.str "New") (.str ""),
        .commit sampleArchive ["/dat.json"],
        .pullLatestArchiveMeta sampleArchive] :=
  (update_manifest_sync sampleEnv ("dat://" ++ sampleKey ++ "/") (.str sampleKey)
    sampleArchive { title := .str "New" } {} { title := .str "Old", description := .str "" }
    [] rfl rfl (fun h => by cases h) rfl rfl rfl).1

/-! ## add without a path -/

theorem loadLocalPath_no_record (key localPath : Value) (w : World)
    (ht : localPath.truthy = false) (hs : lookupSettings w.settings key = none) :
    loadLocalPath key localPath w =
      (.ok localPath, { w with log := w.log ++ [.getUserSettings 0 key] }) := by
  simp [loadLocalPath, ht, tryCatch, run_bind, getUserSettings, run_call, hs, run_pure]

theorem promptLocalPath_run (env : Env) (localPath : Value) (w : World)
    (ht : localPath.truthy = false) :
    promptLocalPath env localPath w =
      (if env.showLocalPathDialog.truthy = true then .ok env.showLocalPathDialog
        else .error { name := "Error", message := "Cancelled" },
        { w with log := w.log ++ [.showLocalPathDialog] }) := by
  cases hc : env.showLocalPathDialog.truthy <;>
    simp [promptLocalPath, ht, hc, run_bind, run_call, run_pure, newError, run_ofExcept,
      construct_Error, run_throwJs]

theorem count_showLocalPathDialog_addAccepted (es : List Event) (key localPath : Value)
    (h : ∀ e ∈ es,
      e = .setUserSettings 0 key
          { isSaved := some (.bool true), localPath := some localPath } ∨
        e = .getOrLoadArchive key ∨ ∃ archive, e = .pullLatestArchiveMeta archive) :
    es.count .showLocalPathDialog = 0 := by
  rw [List.count_eq_zero]
  intro hmem
  rcases h _ hmem with h | h | ⟨_, h⟩ <;> cases h

/-- C6: on a valid reference, `add` without a `localPath` and without a
stored settings record calls the folder prompt once; when the prompt gives
no path, `add` throws the error `Cancelled`, calls `setUserSettings` not at
all and leaves the settings store as it was. -/
theorem add_prompts_once (env : Env) (url : String) (key : Value) (opts : PathOpts)
    (store : List (Value × UserSettings))
    (hk : toKey env url = .ok key) (hno : opts.localPath.truthy = false)
    (hs : lookupSettings store key = none) :
    (add env url opts (World.init store)).2.log.count .showLocalPathDialog = 1 ∧
      (env.showLocalPathDialog.truthy = false →
        (add env url opts (World.init store)).1 =
            .error { name := "Error", message := "Cancelled" } ∧
          (∀ scope k patch, Event.setUserSettings scope k patch ∉
            (add env url opts (World.init store)).2.log) ∧
          (add env url opts (World.init store)).2.settings = store) := by
  have hl := loadLocalPath_no_record key opts.localPath (World.init store) hno hs
  have hp := promptLocalPath_run env opts.localPath
    { World.init store with log := (World.init store).log ++ [.getUserSettings 0 key] } hno
  rw [add_run]
  simp only [hk, hl, hp]
  cases hc : env.showLocalPathDialog.truthy
  · simp [World.init]
  · simp only [if_true, Bool.true_eq_false, false_implies, and_true]
    cases hv : env.validateLocalPath env.showLocalPathDialog
    · simp [World.init]
    · simp only [if_true]
      obtain ⟨es, hlog, hS⟩ := addAccepted_emitsOnly env key env.showLocalPathDialog
        { World.init store with
          log := ((World.init store).log ++ [.getUserSettings 0 key] ++
            [.showLocalPathDialog]) ++
            [.validateLocalPath env.showLocalPathDialog true] }
      rw [hlog]
      simp [World.init, List.count_append, List.count_cons,
        count_showLocalPathDialog_addAccepted es key env.showLocalPathDialog hS]

theorem add_prompts_once_witness :
    (add sampleEnv sampleKey {} (World.init [])).2.log.count .showLocalPathDialog = 1 ∧
      (add sampleEnv sampleKey {} (World.init [])).1 =
        .error { name := "Error", message := "Cancelled" } :=
  ⟨(add_prompts_once sampleEnv sampleKey (.str sampleKey) {} [] rfl rfl rfl).1,
    ((add_prompts_once sampleEnv sampleKey (.str sampleKey) {} [] rfl rfl rfl).2 rfl).1⟩

end Archives
